import Mathlib

/-!
Verification development for the DeDup repository: a shallow embedding of
the workspace store (`src/dedup/workspace.py`), the duplicate resolver
(`src/dedup/deduper.py`), the parallel hashing front-end
(`src/dedup/parallel_processor.py`), the engine (`src/dedup/engine.py`),
the GUI resume filter (`src/dedup/gui/scan_thread.py`) and the streaming
hash functions (`src/dedup/hasher.py`), together with theorems settling
the specification claims.

Modelling conventions:
- SQLite rows of the `files` table are a `List FileRecord` kept in rowid
  order; `INSERT OR REPLACE` on the UNIQUE `path` column deletes the
  conflicting row and appends the fresh row at the end, which is exactly
  what `add_file` does below.
- Nullable TEXT columns are `Option String`; Python truthiness of such a
  value (`if not file[...]`) is the `truthy` predicate (both `None` and
  the empty string are falsy).
- The filesystem is an oracle: `hashFS : String → Option String` gives
  the result of `compute_xxhash` (or `compute_md5`) on a path, `none`
  meaning the read failed and the function returned `None`.
-/

/-- A row of the `files` table (`workspace.py`, `_init_db`): path is the
UNIQUE key; `xxhash` (the fingerprint), `md5` and `sha1` (the confirm
hashes) are nullable TEXT. -/
structure FileRecord where
  path : String
  size : Int
  modified : Int
  xxhash : Option String
  md5 : Option String
  sha1 : Option String
  status : String
deriving DecidableEq, Repr

/-- The `files` table, rows in rowid order. -/
abbrev Store : Type := List FileRecord

/-- Python truthiness of a nullable string column: `None` and `""` are
falsy, everything else truthy. -/
def truthy : Option String → Bool
  | none => false
  | some s => !(s == "")

/-- `Workspace.add_file` (`workspace.py` lines 58-65): `INSERT OR REPLACE`
keyed on the UNIQUE `path` column — the conflicting row (if any) is
deleted and the new row is inserted with a fresh rowid, i.e. at the end. -/
def add_file (st : Store) (r : FileRecord) : Store :=
  (List.filter (fun x => !(x.path == r.path)) st) ++ [r]

/-- `SELECT * FROM files WHERE path = p` with the UNIQUE constraint:
the first (and only) row with the given path. -/
def lookupPath (st : Store) (p : String) : Option FileRecord :=
  List.find? (fun r => r.path == p) st

/-- The paths of the rows of the store. -/
def storePaths (st : Store) : List String :=
  List.map FileRecord.path st

/-- The 50 MiB large-file threshold of `ParallelProcessor`
(`parallel_processor.py` line 11). -/
def large_file_threshold : Int := 50 * 1024 * 1024

/-- A scanned file tuple `(path, size, modified)` as produced by
`scan_directories` (`scanner.py`). -/
abbrev ScanFile : Type := String × Int × Int

/-- A hash result `(filepath, hash)` is kept only when the hash value is
truthy (`if hash_result:` in `process_files_parallel`). -/
def keepResult (hashFS : String → Option String) (f : ScanFile) :
    Option (String × String) :=
  match hashFS f.1 with
  | none => none
  | some h => if h = "" then none else some (f.1, h)

/-- `ParallelProcessor.process_files_parallel` (`parallel_processor.py`
lines 15-71): files of size `≥ 50 MiB` go to the process pool, the rest to
the thread pool; each pool appends `(filepath, hash)` for every truthy
hash result. Concurrency only permutes results within a pool; we fix the
submission order, and claims about the result treat it as a set. -/
def process_files_parallel (files : List ScanFile)
    (hashFS : String → Option String) : List (String × String) :=
  (List.filterMap (keepResult hashFS)
      (List.filter (fun f => large_file_threshold ≤ f.2.1) files)) ++
    (List.filterMap (keepResult hashFS)
      (List.filter (fun f => f.2.1 < large_file_threshold) files))

/-- A single-pool sequential reference implementation, from the spec's
words (§8): apply the hash function to each file in order and keep the
successful `(path, fingerprint)` pairs. -/
def sequential_reference (files : List ScanFile)
    (hashFS : String → Option String) : List (String × String) :=
  List.filterMap (keepResult hashFS) files

/-- `file_dict` of `scan_and_hash` (`engine.py` line 57): a Python dict
comprehension, so a later tuple with the same path wins. -/
def file_dict (files : List ScanFile) (p : String) : Option (Int × Int) :=
  Option.map (fun f => f.2) (List.find? (fun f => f.1 == p) files.reverse)

/-- The row written by `scan_and_hash` for a hashed file: `add_file` is
called with only four positional arguments, so `md5`/`sha1` default to
`None` and `status` to `"present"` (`workspace.py` line 58). -/
def scanRecord (p : String) (sz md : Int) (h : String) : FileRecord :=
  ⟨p, sz, md, some h, none, none, "present"⟩

/-- The sequence of `add_file` writes performed by step 3 of
`scan_and_hash` (`engine.py` lines 56-62); it depends only on the scanned
tree and the hash oracle, never on the current store. -/
def scanOps (files : List ScanFile) (hashFS : String → Option String) :
    List FileRecord :=
  List.filterMap
    (fun r => Option.map (fun sm => scanRecord r.1 sm.1 sm.2 r.2)
      (file_dict files r.1))
    (process_files_parallel files hashFS)

/-- Apply a sequence of `add_file` writes to the store. -/
def applyOps (ops : List FileRecord) (st : Store) : Store :=
  List.foldl add_file st ops

/-- The error taxonomy of the spec (§7): `invalidState` models the
`raise ValueError("No directories to scan")` in `scan_and_hash`. -/
inductive DedupError where
  | invalidState
deriving DecidableEq, Repr

/-- Outcome of an engine run: the store afterwards, plus the error that
propagated out, if any. -/
structure RunResult where
  store : Store
  error : Option DedupError
deriving DecidableEq

/-- `DedupEngine.scan_and_hash` (`engine.py` lines 30-65): raises before
touching anything when no directories are configured; otherwise scans,
hashes in parallel, and upserts one row per successfully hashed file.
The scan result `files` stands for `scan_directories(self.directories)`
applied to the current tree. Nothing clears the store first. -/
def scan_and_hash (dirs : List String) (files : List ScanFile)
    (hashFS : String → Option String) (st : Store) : RunResult :=
  if dirs.isEmpty then ⟨st, some DedupError.invalidState⟩
  else ⟨applyOps (scanOps files hashFS) st, none⟩

/-- The last write to a path in a sequence of ops, if any. -/
def lastWrite (ops : List FileRecord) (p : String) : Option FileRecord :=
  List.find? (fun r => r.path == p) ops.reverse

/-- Keys in first-appearance order, duplicates removed: the iteration
order of a Python `defaultdict`'s `.values()`. -/
def distinctKeys {β : Type} [DecidableEq β] : List β → List β
  | [] => []
  | k :: ks => k :: List.filter (fun x => !(decide (x = k))) (distinctKeys ks)

/-- Partition a list into the buckets of a `defaultdict(list)` built by
`d[key(x)].append(x)`: one bucket per distinct key, in first-appearance
order, each bucket keeping the list order of its members. -/
def bucketsBy {α β : Type} [DecidableEq β] (key : α → β) (l : List α) :
    List (List α) :=
  List.map (fun k => List.filter (fun x => decide (key x = k)) l)
    (distinctKeys (List.map key l))

/-- Lazy fingerprint fill of `find_potential_duplicates` (`deduper.py`
lines 12-15): when the stored `xxhash` is falsy it is recomputed from the
file (possibly yielding `None` again). -/
def updateXx (hashFS : String → Option String) (r : FileRecord) :
    FileRecord :=
  if truthy r.xxhash then r else { r with xxhash := hashFS r.path }

/-- Lazy strong-hash fill of `confirm_duplicates` (`deduper.py` lines
23-25): when the stored `md5` is falsy it is recomputed from the file. -/
def updateMd5 (md5FS : String → Option String) (r : FileRecord) :
    FileRecord :=
  if truthy r.md5 then r else { r with md5 := md5FS r.path }

/-- `Deduper.find_potential_duplicates` (`deduper.py` lines 9-17): walk
the rows of `get_files()`, recompute and persist any falsy fingerprint,
bucket every row (including `None`-fingerprint rows) by its fingerprint,
and return the buckets with more than one member, together with the
updated store. -/
def find_potential_duplicates (hashFS : String → Option String)
    (st : Store) : List (List FileRecord) × Store :=
  (List.filter (fun g => decide (1 < g.length))
      (bucketsBy (fun r => r.xxhash) (List.map (updateXx hashFS) st)),
    List.foldl
      (fun acc r =>
        if truthy r.xxhash then acc else add_file acc (updateXx hashFS r))
      st st)

/-- The confirmed sub-groups contributed by one potential group in
`confirm_duplicates` (`deduper.py` lines 21-30): fill falsy strong
hashes, bucket the group by `md5` (a `None` result is a key like any
other), and keep the buckets with more than one member. -/
def confirmGroup (md5FS : String → Option String)
    (g : List FileRecord) : List (List FileRecord) :=
  List.filter (fun b => decide (1 < b.length))
    (bucketsBy (fun r => r.md5) (List.map (updateMd5 md5FS) g))

/-- The store writes of one iteration of the outer loop of
`confirm_duplicates`: every member whose `md5` was falsy is re-persisted
with the recomputed value (all other fields passed through). -/
def confirmGroupStore (md5FS : String → Option String)
    (st : Store) (g : List FileRecord) : Store :=
  List.foldl
    (fun acc r =>
      if truthy r.md5 then acc else add_file acc (updateMd5 md5FS r))
    st g

/-- `Deduper.confirm_duplicates` (`deduper.py` lines 19-31): concatenate
the confirmed sub-groups of every potential group, threading the lazy
`md5` persistence through the store. -/
def confirm_duplicates (md5FS : String → Option String)
    (potential_groups : List (List FileRecord)) (st : Store) :
    List (List FileRecord) × Store :=
  (potential_groups.flatMap (confirmGroup md5FS),
    List.foldl (confirmGroupStore md5FS) st potential_groups)

/-- The per-file decision of `ScanThread._filter_unhashed_files`
(`scan_thread.py` lines 58-84): the SQL query selects the row with the
same path, the same size and a non-NULL `xxhash` (SQL `IS NOT NULL`, so
an empty-string hash still counts as present); if no such row exists the
file needs hashing, otherwise it is rehashed exactly when the stored
`modified` differs from the current one. -/
def needsHash (st : Store) (f : ScanFile) : Bool :=
  match List.find? (fun r =>
      r.path == f.1 && r.size == f.2.1 && r.xxhash.isSome) st with
  | none => true
  | some r => !(r.modified == f.2.2)

/-- `ScanThread._filter_unhashed_files`: keep, in order, the discovered
files that need (re)hashing. -/
def filter_unhashed_files (st : Store) (allFiles : List ScanFile) :
    List ScanFile :=
  List.filter (needsHash st) allFiles

/-- The directory-persistence state of a workspace: the structured
`workspace_directories` table in `added_at` (= insertion) order, and the
value stored in `workspace_config` under the key `"directories"`, kept
here in decoded form (`json.dumps`/`json.loads` of a string list is an
external-library bijection). -/
structure DirState where
  workspace_directories : List String
  config_directories : Option (List String)
deriving DecidableEq, Repr

/-- `Workspace.save_directories` (`workspace.py` lines 73-93): delete all
rows of `workspace_directories` and insert the new list, then ALSO
`INSERT OR REPLACE` the JSON blob into `workspace_config` under
`"directories"` ("keep the old method for backward compatibility"). -/
def save_directories (st : DirState) (dirs : List String) : DirState :=
  { workspace_directories := dirs, config_directories := some dirs }

/-- `Workspace.load_directories` (`workspace.py` lines 95-110): return
the structured table when it is nonempty, otherwise fall back to the
legacy blob, otherwise the empty list. -/
def load_directories (st : DirState) : List String :=
  if st.workspace_directories.isEmpty then
    st.config_directories.getD []
  else st.workspace_directories

/-- `CHUNK_SIZE` of `hasher.py`: files are read in fixed 1 MiB chunks. -/
def CHUNK_SIZE : Nat := 1024 * 1024

/-- The chunks delivered by the `while chunk := f.read(CHUNK_SIZE)` loop
of `hasher.py`: successive slices of `CHUNK_SIZE` bytes, the last one
possibly shorter. -/
def readChunks {α : Type} (l : List α) : List (List α) :=
  if l.isEmpty then [] else
    List.take CHUNK_SIZE l :: readChunks (List.drop CHUNK_SIZE l)
termination_by l.length
decreasing_by
  rename_i h
  have h1 : l ≠ [] := by intro hc; subst hc; simp at h
  have h2 : (0 : Nat) < CHUNK_SIZE := by decide
  have h3 : 0 < l.length := List.length_pos.mpr h1
  simp only [List.length_drop]
  omega

/-- An incremental hash primitive in the style of `hashlib`/`xxhash`:
a running state, a per-byte update (a chunk update is its fold), and a
hex-digest finaliser. `compute_xxhash`, `compute_md5` and `compute_sha1`
are `compute_hash_stream` at the external `xxhash.xxh64()`,
`hashlib.md5()` and `hashlib.sha1()` primitives respectively. -/
structure StreamHash (σ : Type) where
  init : σ
  upd : σ → Nat → σ
  final : σ → String

/-- Feed one chunk to the hash state (`h.update(chunk)`). -/
def updChunk {σ : Type} (H : StreamHash σ) (s : σ) (c : List Nat) : σ :=
  List.foldl H.upd s c

/-- The common body of `compute_xxhash` / `compute_md5` / `compute_sha1`
(`hasher.py` lines 7-35): open the file, feed its content to the hasher
in `CHUNK_SIZE` chunks, return the hex digest; any failure (modelled by
the filesystem oracle returning `none`) is caught and yields `None`. -/
def compute_hash_stream {σ : Type} (H : StreamHash σ)
    (fs : String → Option (List Nat)) (path : String) : Option String :=
  match fs path with
  | none => none
  | some content =>
      some (H.final (List.foldl (updChunk H) H.init (readChunks content)))

/-- Concrete sanity hash primitive used only to witness the hashing
claims: the state is the byte sum, the digest its decimal rendering. -/
def sumHash : StreamHash Nat :=
  ⟨0, fun s b => s + b, fun s => toString s⟩

/-- A filesystem oracle with a single readable three-byte file. -/
def fsOne : String → Option (List Nat) :=
  fun p => if p = "a" then some [1, 2, 3] else none

/-- A stale record for a path that later rescans no longer discover. -/
def ghostRecord : FileRecord :=
  ⟨"ghost", 1, 1, some "g", some "m", none, "present"⟩

/-- The single file discovered by the rescan in the C7 scenario. -/
def rescanFiles : List ScanFile := [("a", 1, 2)]

/-- The hash oracle of the C7 scenario: only `"a"` is readable. -/
def rescanHash : String → Option String :=
  fun p => if p = "a" then some "h" else none

/-- A stored record carrying a confirm hash and a non-default status,
used to exhibit what `scan_and_hash`'s upsert destroys. -/
def confirmedRecord : FileRecord :=
  ⟨"a", 1, 1, some "x", some "m", some "s", "duplicate"⟩

/-- A stored row that the C3 witness skips: same path, size, modified
time, non-null fingerprint. -/
def skipRecord : FileRecord := ⟨"a", 5, 7, some "x", none, none, "present"⟩

/-- First member of the confirmed pair in the C1 witness scenario. -/
def recA : FileRecord := ⟨"a", 1, 1, some "x", some "h1", none, "present"⟩

/-- Second member of the confirmed pair in the C1 witness scenario. -/
def recB : FileRecord := ⟨"b", 1, 1, some "x", some "h1", none, "present"⟩

/-- The member of the potential group whose strong hash diverges. -/
def recC : FileRecord := ⟨"c", 1, 1, some "x", some "h2", none, "present"⟩

/-- An oracle on which every hash recomputation fails; the C1 witness
records already carry truthy strong hashes so it is never consulted. -/
def md5None : String → Option String := fun _ => none

/-- A stored row whose fingerprint is null and whose file is unreadable. -/
def recP : FileRecord := ⟨"p", 1, 1, none, none, none, "present"⟩

/-- A second such row with a different path and content. -/
def recQ : FileRecord := ⟨"q", 2, 2, none, none, none, "present"⟩

/-- An oracle on which every read fails: `compute_xxhash`/`compute_md5`
return `None` for every path. -/
def hashNone : String → Option String := fun _ => none

theorem find?_filter_ne {p q : String} (st : List FileRecord) (hpq : q ≠ p) :
    List.find? (fun r => r.path == p)
      (List.filter (fun x => !(x.path == q)) st)
      = List.find? (fun r => r.path == p) st := by
  induction st with
  | nil => rfl
  | cons a st ih =>
    by_cases ha : a.path = q
    · have h1 : (!(a.path == q)) = false := by simp [ha]
      have h2 : (a.path == p) = false := by
        simp only [beq_eq_false_iff_ne, ne_eq]
        intro hc; exact hpq (hc ▸ ha.symm)
      simp [List.filter, List.find?, h1, h2, ih]
    · have h1 : (!(a.path == q)) = true := by simp [ha]
      by_cases hb : a.path = p
      · have h2 : (a.path == p) = true := by simp [hb]
        simp [List.filter, List.find?, h1, h2]
      · have h2 : (a.path == p) = false := by simp [hb]
        simp [List.filter, List.find?, h1, h2, ih]

theorem find?_filter_self {p : String} (st : List FileRecord) :
    List.find? (fun r => r.path == p)
      (List.filter (fun x => !(x.path == p)) st) = none := by
  apply List.find?_eq_none.mpr
  intro x hx
  have := List.of_mem_filter hx
  simp only [Bool.not_eq_true', beq_eq_false_iff_ne, ne_eq] at this
  simp [this]

/-- Lookup after `add_file`: the new row wins on its own path, every other
path is untouched. -/
theorem lookupPath_add_file (st : Store) (r : FileRecord) (p : String) :
    lookupPath (add_file st r) p =
      if r.path = p then some r else lookupPath st p := by
  unfold lookupPath add_file
  rw [List.find?_append]
  by_cases h : r.path = p
  · rw [if_pos h]
    rw [show (List.find? (fun x => x.path == p)
        (List.filter (fun x => !(x.path == r.path)) st)) = none from
        h ▸ find?_filter_self st]
    simp [List.find?, h]
  · rw [if_neg h]
    rw [find?_filter_ne st h]
    have : (r.path == p) = false := by simp [h]
    simp [List.find?, this]

theorem lookupPath_applyOps (ops : List FileRecord) (st : Store)
    (p : String) :
    lookupPath (applyOps ops st) p =
      match lastWrite ops p with
      | some r => some r
      | none => lookupPath st p := by
  induction ops generalizing st with
  | nil => rfl
  | cons a ops ih =>
    show lookupPath (applyOps ops (add_file st a)) p = _
    rw [ih]
    unfold lastWrite
    rw [List.reverse_cons, List.find?_append]
    cases hfind : List.find? (fun r => r.path == p) ops.reverse with
    | some r => simp [lastWrite, hfind]
    | none =>
      rw [lookupPath_add_file]
      by_cases h : a.path = p
      · simp [lastWrite, hfind, List.find?, h]
      · have hb : (a.path == p) = false := by simp [h]
        simp [lastWrite, hfind, List.find?, hb, h]

/-- Applying the same write sequence twice is the same as applying it
once, at every path. -/
theorem lookupPath_applyOps_twice (ops : List FileRecord) (st : Store)
    (p : String) :
    lookupPath (applyOps ops (applyOps ops st)) p
      = lookupPath (applyOps ops st) p := by
  rw [lookupPath_applyOps, lookupPath_applyOps]
  cases h : lastWrite ops p with
  | some r => rfl
  | none => rfl

theorem mem_distinctKeys {β : Type} [DecidableEq β] {k : β} :
    ∀ {ks : List β}, k ∈ distinctKeys ks → k ∈ ks := by
  intro ks
  induction ks with
  | nil => intro h; exact absurd h (List.not_mem_nil k)
  | cons a ks ih =>
    intro h
    rcases List.mem_cons.mp h with h | h
    · exact h ▸ List.mem_cons_self a ks
    · exact List.mem_cons_of_mem a (ih (List.mem_of_mem_filter h))

/-- Every bucket of `bucketsBy key l` is the filter of `l` at some key
that occurs in `l`. -/
theorem mem_bucketsBy {α β : Type} [DecidableEq β] {key : α → β}
    {l : List α} {g : List α} (hg : g ∈ bucketsBy key l) :
    ∃ k, k ∈ List.map key l ∧
      g = List.filter (fun x => decide (key x = k)) l := by
  rcases List.mem_map.mp hg with ⟨k, hk, hgk⟩
  exact ⟨k, mem_distinctKeys hk, hgk.symm⟩

/-- Folding chunk updates over the read loop's chunks equals the one-shot
fold over the whole content. -/
theorem foldl_readChunks_aux {σ : Type} (H : StreamHash σ) (n : Nat) :
    ∀ (l : List Nat), l.length = n → ∀ (s : σ),
      List.foldl (updChunk H) s (readChunks l) = List.foldl H.upd s l := by
  induction n using Nat.strong_induction_on with
  | _ n ih =>
    intro l hn s
    by_cases hl : l = []
    · subst hl
      rw [readChunks]
      simp
    · have hle : l.isEmpty = false := by
        cases l with
        | nil => exact absurd rfl hl
        | cons a as => rfl
      rw [readChunks]
      rw [hle]
      simp only [Bool.false_eq_true, if_false]
      rw [List.foldl_cons]
      have hsplit : List.take CHUNK_SIZE l ++ List.drop CHUNK_SIZE l = l :=
        List.take_append_drop CHUNK_SIZE l
      have hlen : (List.drop CHUNK_SIZE l).length < n := by
        subst hn
        simp only [List.length_drop]
        have h1 : l.length ≠ 0 := by
          intro hc; exact hl (List.eq_nil_of_length_eq_zero hc)
        have h2 : (0 : Nat) < CHUNK_SIZE := by decide
        omega
      rw [ih _ hlen _ rfl]
      show List.foldl H.upd (updChunk H s (List.take CHUNK_SIZE l))
          (List.drop CHUNK_SIZE l) = List.foldl H.upd s l
      rw [show updChunk H s (List.take CHUNK_SIZE l)
          = List.foldl H.upd s (List.take CHUNK_SIZE l) from rfl]
      rw [← List.foldl_append]
      rw [hsplit]

/-- The chunked fold over the read loop equals the one-shot fold over the
whole content. -/
theorem foldl_readChunks {σ : Type} (H : StreamHash σ) (l : List Nat)
    (s : σ) :
    List.foldl (updChunk H) s (readChunks l) = List.foldl H.upd s l :=
  foldl_readChunks_aux H l.length l rfl s

/-- `add_file` keeps paths pairwise distinct: the at-most-one-row-per-path
invariant enforced by the UNIQUE constraint. -/
theorem add_file_pairwise (st : Store) (r : FileRecord)
    (h : List.Pairwise (fun a b => a.path ≠ b.path) st) :
    List.Pairwise (fun a b => a.path ≠ b.path) (add_file st r) := by
  unfold add_file
  apply List.pairwise_append.mpr
  refine ⟨List.Pairwise.filter _ h, List.pairwise_singleton _ _, ?_⟩
  intro x hx y hy
  have hxp := List.of_mem_filter hx
  simp only [Bool.not_eq_true', beq_eq_false_iff_ne, ne_eq] at hxp
  have : y = r := List.mem_singleton.mp hy
  rw [this]
  exact hxp

/-- Claim C10: each hash function is total over all path inputs: it
returns `None` exactly when the read fails, and on success it returns the
digest of the entire content — the 1 MiB chunked feed equals hashing the
whole content at once. Stated for `compute_hash_stream`, the common body
of `compute_xxhash`, `compute_md5` and `compute_sha1`, over an arbitrary
incremental hash primitive. -/
theorem compute_hash_stream_total_and_chunked {σ : Type}
    (H : StreamHash σ) (fs : String → Option (List Nat)) (path : String) :
    (compute_hash_stream H fs path = none ↔ fs path = none) ∧
    (∀ content, fs path = some content →
      compute_hash_stream H fs path
        = some (H.final (List.foldl H.upd H.init content))) := by
  constructor
  · unfold compute_hash_stream
    cases h : fs path with
    | none => simp
    | some content => simp
  · intro content hc
    unfold compute_hash_stream
    rw [hc]
    show some (H.final (List.foldl (updChunk H) H.init (readChunks content)))
        = some (H.final (List.foldl H.upd H.init content))
    rw [foldl_readChunks]

/-- Witness for claim C10 at a concrete hash primitive, filesystem and
path. -/
theorem compute_hash_stream_total_and_chunked_witness :
    fsOne "a" = some [1, 2, 3] ∧
    compute_hash_stream sumHash fsOne "a"
      = some (sumHash.final (List.foldl sumHash.upd sumHash.init [1, 2, 3])) :=
  ⟨rfl, (compute_hash_stream_total_and_chunked sumHash fsOne "a").2
    [1, 2, 3] rfl⟩

/-- Claim C8: the 50 MiB size routing of `process_files_parallel` is
scheduling only: as a set, its `(path, fingerprint)` results equal those
of the single-pool sequential reference that applies the same hash
function to each file in order. -/
theorem process_files_parallel_refines_sequential (files : List ScanFile)
    (hashFS : String → Option String) (x : String × String) :
    x ∈ process_files_parallel files hashFS ↔
      x ∈ sequential_reference files hashFS := by
  unfold process_files_parallel sequential_reference
  rw [List.mem_append, List.mem_filterMap, List.mem_filterMap,
    List.mem_filterMap]
  constructor
  · rintro (⟨f, hf, hk⟩ | ⟨f, hf, hk⟩)
    · exact ⟨f, List.mem_of_mem_filter hf, hk⟩
    · exact ⟨f, List.mem_of_mem_filter hf, hk⟩
  · rintro ⟨f, hf, hk⟩
    by_cases hs : large_file_threshold ≤ f.2.1
    · exact Or.inl ⟨f, List.mem_filter.mpr ⟨hf, by simp [hs]⟩, hk⟩
    · refine Or.inr ⟨f, List.mem_filter.mpr ⟨hf, ?_⟩, hk⟩
      simp only [decide_eq_true_eq]
      omega

/-- Claim C4: running `scan_and_hash` a second time over the same
unchanged tree (same scanned file tuples, same hash results) leaves every
path of the stored `FileRecord` set exactly as after the first run. -/
theorem scan_and_hash_idempotent (dirs : List String)
    (files : List ScanFile) (hashFS : String → Option String)
    (st : Store) (p : String) :
    lookupPath
        (scan_and_hash dirs files hashFS
          (scan_and_hash dirs files hashFS st).store).store p
      = lookupPath (scan_and_hash dirs files hashFS st).store p := by
  unfold scan_and_hash
  cases h : dirs.isEmpty with
  | true => simp
  | false =>
    simp only [Bool.false_eq_true, if_false]
    exact lookupPath_applyOps_twice _ _ _

/-- Claim C9: invoking `scan_and_hash` with no scan roots configured
fails with the `InvalidState` error (the `raise ValueError` at the top of
the method) and returns the store untouched: the raise happens before
any scan, hash or write. -/
theorem scan_and_hash_no_roots (dirs : List String)
    (files : List ScanFile) (hashFS : String → Option String)
    (st : Store) (h : dirs = []) :
    scan_and_hash dirs files hashFS st
      = ⟨st, some DedupError.invalidState⟩ := by
  subst h
  rfl

/-- Witness for claim C9 at a concrete empty root list and store. -/
theorem scan_and_hash_no_roots_witness :
    ([] : List String) = [] ∧
    scan_and_hash [] [] (fun _ => none)
        [⟨"a", 1, 1, some "x", none, none, "present"⟩]
      = ⟨[⟨"a", 1, 1, some "x", none, none, "present"⟩],
          some DedupError.invalidState⟩ :=
  ⟨rfl, scan_and_hash_no_roots [] [] (fun _ => none)
    [⟨"a", 1, 1, some "x", none, none, "present"⟩] rfl⟩

/-- Counterexample to claim C7: `scan_and_hash` never calls
`clear_files`, so after a full rescan that does not discover `"ghost"`
its record still sits in the store. -/
theorem scan_and_hash_does_not_clear :
    "ghost" ∉ List.map (fun f => f.1) rescanFiles ∧
    lookupPath (scan_and_hash ["d"] rescanFiles rescanHash
      [ghostRecord]).store "ghost" = some ghostRecord := by
  constructor
  · decide
  · rfl

/-- Claim C7 amended: `scan_and_hash` only upserts the rows of the files
it discovered and hashed; it never deletes, so every path it does not
write is left exactly as before (clearing is done separately by the GUI
caller via `clear_files`). -/
theorem scan_and_hash_frame (dirs : List String) (files : List ScanFile)
    (hashFS : String → Option String) (st : Store) (p : String)
    (h : ∀ r ∈ scanOps files hashFS, r.path ≠ p) :
    lookupPath (scan_and_hash dirs files hashFS st).store p
      = lookupPath st p := by
  unfold scan_and_hash
  cases hd : dirs.isEmpty with
  | true => rfl
  | false =>
    simp only [Bool.false_eq_true, if_false]
    rw [lookupPath_applyOps]
    have hl : lastWrite (scanOps files hashFS) p = none := by
      apply List.find?_eq_none.mpr
      intro r hr
      have := h r (List.mem_reverse.mp hr)
      simp [this]
    rw [hl]

/-- Witness for the amended claim C7: the ghost record survives the
rescan untouched. -/
theorem scan_and_hash_frame_witness :
    (∀ r ∈ scanOps rescanFiles rescanHash, r.path ≠ "ghost") ∧
    lookupPath (scan_and_hash ["d"] rescanFiles rescanHash
        [ghostRecord]).store "ghost"
      = lookupPath [ghostRecord] "ghost" :=
  ⟨by decide, scan_and_hash_frame ["d"] rescanFiles rescanHash
    [ghostRecord] "ghost" (by decide)⟩

/-- Counterexample to claim C5: `scan_and_hash` rehashes `"a"` and calls
`add_file` with only four arguments, so the `INSERT OR REPLACE` rewrites
the row with NULL `md5`/`sha1` and status `"present"`, losing the stored
confirm hash and status. -/
theorem scan_and_hash_loses_confirm_hash :
    confirmedRecord.md5 = some "m" ∧
    confirmedRecord.status = "duplicate" ∧
    lookupPath (scan_and_hash ["d"] [("a", 1, 2)] rescanHash
        [confirmedRecord]).store "a"
      = some ⟨"a", 1, 2, some "h", none, none, "present"⟩ := by
  refine ⟨rfl, rfl, ?_⟩
  rfl

/-- Claim C5 amended: the store keeps at most one record per path, and
`add_file` is a full row replacement with exactly the values passed in
the call — so a caller that passes defaults (as `scan_and_hash` does for
`md5`, `sha1` and `status`) resets those fields rather than preserving
them; paths other than the written one are untouched. -/
theorem add_file_upsert_spec (st : Store) (r : FileRecord)
    (h : List.Pairwise (fun a b => a.path ≠ b.path) st) :
    List.Pairwise (fun a b => a.path ≠ b.path) (add_file st r) ∧
    lookupPath (add_file st r) r.path = some r ∧
    (∀ q, q ≠ r.path → lookupPath (add_file st r) q = lookupPath st q) := by
  refine ⟨add_file_pairwise st r h, ?_, ?_⟩
  · rw [lookupPath_add_file]
    simp
  · intro q hq
    rw [lookupPath_add_file]
    rw [if_neg (fun hc => hq (Eq.symm hc))]

/-- Witness for the amended claim C5 at a concrete one-row store. -/
theorem add_file_upsert_spec_witness :
    List.Pairwise (fun a b => a.path ≠ b.path) [confirmedRecord] ∧
    lookupPath (add_file [confirmedRecord] (scanRecord "a" 1 2 "h")) "a"
      = some (scanRecord "a" 1 2 "h") :=
  ⟨by decide,
    (add_file_upsert_spec [confirmedRecord] (scanRecord "a" 1 2 "h")
      (by decide)).2.1⟩

/-- Counterexample to claim C6: `save_directories` writes the legacy
single-blob `workspace_config` entry on every save ("keep the old method
for backward compatibility"), so the legacy format is not read-only. -/
theorem save_directories_writes_legacy :
    (save_directories ⟨[], none⟩ ["a"]).config_directories = some ["a"] ∧
    (⟨[], none⟩ : DirState).config_directories = none := by
  exact ⟨rfl, rfl⟩

/-- Claim C6 amended: `save_directories` replaces the structured root
list wholesale AND rewrites the legacy blob on every save; the legacy
blob is consulted by `load_directories` only when the structured list is
empty. -/
theorem save_load_directories_spec (st st2 st3 : DirState)
    (dirs : List String)
    (h2 : st2.workspace_directories = [])
    (h3 : st3.workspace_directories ≠ []) :
    (save_directories st dirs).workspace_directories = dirs ∧
    (save_directories st dirs).config_directories = some dirs ∧
    load_directories st2 = st2.config_directories.getD [] ∧
    load_directories st3 = st3.workspace_directories := by
  refine ⟨rfl, rfl, ?_, ?_⟩
  · unfold load_directories
    rw [h2]
    rfl
  · unfold load_directories
    have : st3.workspace_directories.isEmpty = false := by
      cases hc : st3.workspace_directories with
      | nil => exact absurd hc h3
      | cons a l => rfl
    rw [this]
    rfl

/-- Witness for the amended claim C6 at concrete directory states. -/
theorem save_load_directories_spec_witness :
    (⟨[], some ["legacy"]⟩ : DirState).workspace_directories = [] ∧
    (⟨["r"], none⟩ : DirState).workspace_directories ≠ [] ∧
    (save_directories ⟨[], none⟩ ["a"]).workspace_directories = ["a"] ∧
    load_directories ⟨[], some ["legacy"]⟩ = ["legacy"] ∧
    load_directories ⟨["r"], none⟩ = ["r"] := by
  have h := save_load_directories_spec ⟨[], none⟩ ⟨[], some ["legacy"]⟩
    ⟨["r"], none⟩ ["a"] (by decide) (by decide)
  exact ⟨rfl, by decide, h.1, h.2.2.1, h.2.2.2⟩

/-- Claim C3: the resume/skip filter of the scan thread skips a
discovered file exactly when the store holds a record with the same
path, the same size, a non-null fingerprint and the same stored
`modified` time; any mismatch (absence, null fingerprint, size or
modified-time difference) sends the file back to hashing. The
path-uniqueness hypothesis is the UNIQUE constraint of the table. -/
theorem filter_unhashed_files_spec (st : Store) (p : String) (s m : Int)
    (hu : List.Pairwise (fun a b => a.path ≠ b.path) st) :
    (needsHash st (p, s, m) = false ↔
      ∃ r ∈ st, r.path = p ∧ r.size = s ∧ r.xxhash.isSome ∧
        r.modified = m) ∧
    (∀ allFiles : List ScanFile, (p, s, m) ∈ allFiles →
      ((p, s, m) ∉ filter_unhashed_files st allFiles ↔
        needsHash st (p, s, m) = false)) := by
  constructor
  · unfold needsHash
    cases hf : List.find? (fun r =>
        r.path == p && r.size == s && r.xxhash.isSome) st with
    | none =>
      simp only [Bool.true_eq_false, false_iff]
      rintro ⟨r, hr, h1, h2, h3, h4⟩
      have := List.find?_eq_none.mp hf r hr
      simp [h1, h2, h3] at this
    | some r =>
      have hrmem : r ∈ st := List.mem_of_find?_eq_some hf
      have hpred := List.find?_some hf
      simp only [Bool.and_eq_true, beq_iff_eq] at hpred
      obtain ⟨⟨hp, hs⟩, hx⟩ := hpred
      constructor
      · intro hmod
        simp only [Bool.not_eq_false', beq_iff_eq] at hmod
        exact ⟨r, hrmem, hp, hs, hx, hmod⟩
      · rintro ⟨r2, hr2, h1, h2, h3, h4⟩
        have heq : r2 = r := by
          by_contra hne
          exact (hu.forall (fun a b hab => Ne.symm hab) hr2 hrmem hne)
            (h1.trans hp.symm)
        simp only [Bool.not_eq_false', beq_iff_eq]
        rw [← heq, h4]
  · intro allFiles hmem
    unfold filter_unhashed_files
    constructor
    · intro hnot
      cases hn : needsHash st (p, s, m) with
      | false => rfl
      | true =>
        exact absurd (List.mem_filter.mpr ⟨hmem, hn⟩) hnot
    · intro hn hcontra
      have := (List.mem_filter.mp hcontra).2
      rw [hn] at this
      exact Bool.false_ne_true this

/-- Witness for claim C3 at a concrete one-row store. -/
theorem filter_unhashed_files_spec_witness :
    List.Pairwise (fun a b => a.path ≠ b.path) [skipRecord] ∧
    (needsHash [skipRecord] ("a", 5, 7) = false ↔
      ∃ r ∈ [skipRecord], r.path = "a" ∧ r.size = 5 ∧ r.xxhash.isSome ∧
        r.modified = 7) :=
  ⟨by decide,
    (filter_unhashed_files_spec [skipRecord] "a" 5 7 (by decide)).1⟩

/-- Claim C1: `confirm_duplicates` partitions every potential group by
strong hash and returns exactly the sub-groups with more than one
member: each confirmed group has at least two members, its members all
share the same `md5`, it is contained in (the lazily-updated image of)
some potential group with size bounded by that group's size, and a
member whose strong hash differs from every other member of its (unique)
potential group lands in no confirmed group. -/
theorem confirm_duplicates_spec (md5FS : String → Option String)
    (groups : List (List FileRecord)) (st : Store) :
    (∀ cg ∈ (confirm_duplicates md5FS groups st).1,
      2 ≤ cg.length ∧
      (∀ x ∈ cg, ∀ y ∈ cg, x.md5 = y.md5) ∧
      ∃ pg ∈ groups, (∀ x ∈ cg, x ∈ List.map (updateMd5 md5FS) pg) ∧
        cg.length ≤ pg.length) ∧
    (∀ pg ∈ groups, ∀ r : FileRecord,
      List.filter (fun x => decide (x.md5 = r.md5))
          (List.map (updateMd5 md5FS) pg) = [r] →
      (∀ pg2 ∈ groups, r ∈ List.map (updateMd5 md5FS) pg2 → pg2 = pg) →
      ∀ cg ∈ (confirm_duplicates md5FS groups st).1, r ∉ cg) := by
  have hmem : ∀ cg, cg ∈ (confirm_duplicates md5FS groups st).1 ↔
      ∃ pg ∈ groups, cg ∈ confirmGroup md5FS pg := by
    intro cg
    exact List.mem_flatMap
  constructor
  · intro cg hcg
    obtain ⟨pg, hpg, hin⟩ := (hmem cg).mp hcg
    obtain ⟨hb, hlen⟩ := List.mem_filter.mp hin
    have hlen2 : 1 < cg.length := of_decide_eq_true hlen
    obtain ⟨k, _, hcgeq⟩ := mem_bucketsBy hb
    refine ⟨by omega, ?_, pg, hpg, ?_, ?_⟩
    · intro x hx y hy
      rw [hcgeq] at hx hy
      have hxk := of_decide_eq_true (List.mem_filter.mp hx).2
      have hyk := of_decide_eq_true (List.mem_filter.mp hy).2
      rw [hxk, hyk]
    · intro x hx
      rw [hcgeq] at hx
      exact (List.mem_filter.mp hx).1
    · rw [hcgeq]
      calc (List.filter (fun x => decide (x.md5 = k))
              (List.map (updateMd5 md5FS) pg)).length
          ≤ (List.map (updateMd5 md5FS) pg).length :=
            List.length_filter_le _ _
        _ = pg.length := List.length_map _ _
  · intro pg hpg r hfilter huniq cg hcg hrin
    obtain ⟨pg2, hpg2, hin⟩ := (hmem cg).mp hcg
    obtain ⟨hb, hlen⟩ := List.mem_filter.mp hin
    have hlen2 : 1 < cg.length := of_decide_eq_true hlen
    obtain ⟨k, _, hcgeq⟩ := mem_bucketsBy hb
    rw [hcgeq] at hrin
    have hrmap : r ∈ List.map (updateMd5 md5FS) pg2 :=
      (List.mem_filter.mp hrin).1
    have hk : r.md5 = k :=
      of_decide_eq_true (List.mem_filter.mp hrin).2
    have hpg2eq : pg2 = pg := huniq pg2 hpg2 hrmap
    rw [hpg2eq, ← hk] at hcgeq
    rw [hcgeq, hfilter] at hlen2
    simp at hlen2

/-- Witness for claim C1: in the potential group `[recA, recB, recC]`
the pair sharing `md5` is confirmed with size 2, and `recC`, whose
strong hash differs from every other member, is excluded from every
confirmed group. -/
theorem confirm_duplicates_spec_witness :
    [recA, recB] ∈ (confirm_duplicates md5None [[recA, recB, recC]] []).1 ∧
    2 ≤ ([recA, recB] : List FileRecord).length ∧
    recC ∉ ([recA, recB] : List FileRecord) := by
  have h := confirm_duplicates_spec md5None [[recA, recB, recC]] []
  refine ⟨by decide, (h.1 [recA, recB] (by decide)).1, ?_⟩
  exact h.2 [recA, recB, recC] (by decide) recC (by decide) (by decide)
    [recA, recB] (by decide)

/-- Claim C2 evaluated at its failing input: two stored rows whose reads
fail keep a null fingerprint, yet `find_potential_duplicates` buckets
both under the `None` key and reports them as one potential duplicate
group, and `confirm_duplicates` then confirms that group under the
`None` `md5` key — the two unreadable files are reported as duplicates
of each other. -/
theorem unreadable_files_grouped_together :
    recP.xxhash = none ∧ recQ.xxhash = none ∧
    (find_potential_duplicates hashNone [recP, recQ]).1 = [[recP, recQ]] ∧
    (confirm_duplicates hashNone [[recP, recQ]] []).1 = [[recP, recQ]] := by
  exact ⟨rfl, rfl, by decide, by decide⟩
